import Mathlib

/-!
Verification of the wallet-timeline reconstruction engine
(`useWalletTimeline` module: `calculateLockedAmount`, `buildBalanceTimeline`,
and the timeline-extension portion of `parseWalletTimeline`).

Modelling conventions:
* JavaScript numbers are modelled as exact rationals (`ℚ`).  Where IEEE-754
  special values (Infinity / NaN) are observable — division by a zero
  unlock period, unparseable dates — a dedicated type `JsNum` with
  IEEE-style propagation rules is used.
* ISO-8601 timestamp strings are modelled as rational instants
  (milliseconds since epoch); the source compares such strings
  lexicographically, which for the shared fixed format coincides with
  chronological (numeric) order.
* An event tuple is a record with a `len` field recording the number of
  fields of the underlying raw array (`event.length` in the source); the
  extension fields at indices 12..14 carry the `|| 0` coalesced values.
-/

/-- One raw staker-cache event
`[signature, timestamp, slot, type_id, address, d_stake, d_pending,
d_withdrawn, d_compounded, fee_payer, reward_sol, treasury, cliff_hours,
unlock_period_hours, unlock_rate_tuna]`.  `len` is the raw tuple length. -/
structure StakerEvent where
  signature : String
  timestamp : ℚ
  slot : ℤ
  op_type : ℤ
  address : String
  d_stake : ℚ
  d_pending : ℚ
  d_withdrawn : ℚ
  d_compounded : ℚ
  reward_sol : ℚ
  len : ℕ
  cliffHours : ℚ
  unlockPeriodHours : ℚ
  unlockRateTuna : ℚ
  deriving DecidableEq

/-- Vesting schedule tracked per staking position. -/
structure VestingSchedule where
  startTime : ℚ
  lockedTuna : ℚ
  cliffHours : ℚ
  unlockPeriodHours : ℚ
  unlockRateTuna : ℚ
  deriving DecidableEq

/-- One point of the produced balance timeline. -/
structure TimelinePoint where
  date : ℚ
  staked : ℚ
  unstaked : ℚ
  locked : ℚ
  realized_rewards : ℚ
  deriving DecidableEq

instance : Inhabited TimelinePoint := ⟨⟨0, 0, 0, 0, 0⟩⟩

/-- One user-facing operation record. -/
structure Operation where
  date : ℚ
  type : String
  type_label : String
  amount : ℚ
  signature : String
  solscan_url : String
  deriving DecidableEq

/-- `Math.round(x * 1000000) / 1000000` — fixed 6-decimal rounding applied
by the source at every point of computation.  `Math.round x = ⌊x + 1/2⌋`. -/
def round6 (x : ℚ) : ℚ := ((⌊x * 1000000 + 1 / 2⌋ : ℤ) : ℚ) / 1000000

/-- `calculateLockedAmount` (exact-rational version, faithful to the source
whenever `unlockPeriodHours ≠ 0`; see `calcLockedAmountJs` for the IEEE
behaviour at a zero period, and the agreement lemma in the C5 theorem). -/
def calculateLockedAmount (schedule : VestingSchedule) (currentTime : ℚ) : ℚ :=
  let elapsedMs := currentTime - schedule.startTime
  let elapsedHours := elapsedMs / (1000 * 60 * 60)
  if elapsedHours < schedule.cliffHours then
    schedule.lockedTuna
  else
    let hoursSinceCliff := elapsedHours - schedule.cliffHours
    let unlockPeriods : ℤ := ⌊hoursSinceCliff / schedule.unlockPeriodHours⌋
    let totalUnlocked := (unlockPeriods : ℚ) * schedule.unlockRateTuna
    max 0 (schedule.lockedTuna - totalUnlocked)

/-- JavaScript number with IEEE-754 special values, used where the source
can produce Infinity or NaN (division by a zero unlock period, invalid
dates). -/
inductive JsNum where
  | finite (q : ℚ)
  | posInf
  | negInf
  | nan
  deriving DecidableEq

/-- IEEE division for `JsNum` (zero is `+0`, as produced by the source). -/
def jsDiv : JsNum → JsNum → JsNum
  | .nan, _ => .nan
  | _, .nan => .nan
  | .finite a, .finite b =>
      if b = 0 then (if a = 0 then .nan else if 0 < a then .posInf else .negInf)
      else .finite (a / b)
  | .posInf, .finite b => if b < 0 then .negInf else .posInf
  | .negInf, .finite b => if b < 0 then .posInf else .negInf
  | .finite _, .posInf => .finite 0
  | .finite _, .negInf => .finite 0
  | .posInf, .posInf => .nan
  | .posInf, .negInf => .nan
  | .negInf, .posInf => .nan
  | .negInf, .negInf => .nan

/-- IEEE `Math.floor` for `JsNum`. -/
def jsFloor : JsNum → JsNum
  | .finite a => .finite (⌊a⌋ : ℚ)
  | x => x

/-- IEEE multiplication for `JsNum`. -/
def jsMul : JsNum → JsNum → JsNum
  | .nan, _ => .nan
  | _, .nan => .nan
  | .finite a, .finite b => .finite (a * b)
  | .posInf, .finite b => if b = 0 then .nan else if 0 < b then .posInf else .negInf
  | .negInf, .finite b => if b = 0 then .nan else if 0 < b then .negInf else .posInf
  | .finite a, .posInf => if a = 0 then .nan else if 0 < a then .posInf else .negInf
  | .finite a, .negInf => if a = 0 then .nan else if 0 < a then .negInf else .posInf
  | .posInf, .posInf => .posInf
  | .posInf, .negInf => .negInf
  | .negInf, .posInf => .negInf
  | .negInf, .negInf => .posInf

/-- IEEE subtraction for `JsNum`. -/
def jsSub : JsNum → JsNum → JsNum
  | .nan, _ => .nan
  | _, .nan => .nan
  | .finite a, .finite b => .finite (a - b)
  | .finite _, .posInf => .negInf
  | .finite _, .negInf => .posInf
  | .posInf, .finite _ => .posInf
  | .negInf, .finite _ => .negInf
  | .posInf, .posInf => .nan
  | .negInf, .negInf => .nan
  | .posInf, .negInf => .posInf
  | .negInf, .posInf => .negInf

/-- IEEE `Math.max` for `JsNum` (`NaN` if any argument is `NaN`). -/
def jsMax : JsNum → JsNum → JsNum
  | .nan, _ => .nan
  | _, .nan => .nan
  | .posInf, _ => .posInf
  | _, .posInf => .posInf
  | .negInf, x => x
  | x, .negInf => x
  | .finite a, .finite b => .finite (max a b)

/-- `calculateLockedAmount` with exact IEEE-754 semantics: the source has
no guard inside this function, so a zero `unlockPeriodHours` makes
`hoursSinceCliff / unlockPeriodHours` evaluate to ±Infinity or NaN. -/
def calcLockedAmountJs (schedule : VestingSchedule) (currentTime : ℚ) : JsNum :=
  let elapsedHours : ℚ := (currentTime - schedule.startTime) / (1000 * 60 * 60)
  if elapsedHours < schedule.cliffHours then
    .finite schedule.lockedTuna
  else
    let hoursSinceCliff : ℚ := elapsedHours - schedule.cliffHours
    let unlockPeriods : JsNum :=
      jsFloor (jsDiv (.finite hoursSinceCliff) (.finite schedule.unlockPeriodHours))
    let totalUnlocked : JsNum := jsMul unlockPeriods (.finite schedule.unlockRateTuna)
    jsMax (.finite 0) (jsSub (.finite schedule.lockedTuna) totalUnlocked)

/-- The `EVENT_TYPES` mapping (`unknown` for out-of-range ordinals). -/
def eventTypeInfo (t : ℤ) : String × String :=
  if t = 0 then ("initialize", "Initialize Position")
  else if t = 1 then ("stake", "Stake")
  else if t = 2 then ("unstake", "Unstake")
  else if t = 3 then ("withdraw", "Withdraw")
  else if t = 4 then ("compound", "Compound")
  else if t = 5 then ("claim", "Claim Rewards")
  else if t = 6 then ("set_vesting", "Set Vesting Strategy")
  else ("unknown", "Unknown")

/-- Accumulator state of `buildBalanceTimeline`. -/
structure AccState where
  staked : ℚ
  unstaked : ℚ
  realized : ℚ
  schedules : List VestingSchedule
  timeline : List TimelinePoint
  operations : List Operation
  deriving DecidableEq

def initState : AccState :=
  { staked := 0, unstaked := 0, realized := 0, schedules := [], timeline := [], operations := [] }

/-- The vesting schedule created by a `set_vesting` event (locked amount is
`Math.abs(d_stake)`; cliff/period/rate come from extension fields 12–14). -/
def newScheduleOf (e : StakerEvent) : VestingSchedule :=
  { startTime := e.timestamp
    lockedTuna := |e.d_stake|
    cliffHours := e.cliffHours
    unlockPeriodHours := e.unlockPeriodHours
    unlockRateTuna := e.unlockRateTuna }

/-- `vestingSchedules.findIndex(s => s.lockedTuna === amount)` followed by
in-place replacement, else `push`: replace the first schedule whose
`lockedTuna` equals that of the new schedule, otherwise append. -/
def updateSchedules (l : List VestingSchedule) (ns : VestingSchedule) : List VestingSchedule :=
  match l with
  | [] => [ns]
  | s :: rest => if s.lockedTuna = ns.lockedTuna then ns :: rest else s :: updateSchedules rest ns

/-- The per-event-type branch of `buildBalanceTimeline`: updates the running
scalars/schedule set and computes the operation `amount`. -/
def coreStep (st : AccState) (e : StakerEvent) : AccState × ℚ :=
  if e.op_type = 0 then
    ({ st with staked := st.staked + e.d_stake, unstaked := st.unstaked + e.d_pending }, |e.d_stake|)
  else if e.op_type = 1 then
    ({ st with staked := st.staked + e.d_stake, unstaked := st.unstaked + e.d_pending }, |e.d_stake|)
  else if e.op_type = 2 then
    ({ st with staked := st.staked + e.d_stake, unstaked := st.unstaked + e.d_pending }, |e.d_stake|)
  else if e.op_type = 3 then
    ({ st with staked := st.staked + e.d_stake, unstaked := st.unstaked + e.d_pending }, |e.d_pending|)
  else if e.op_type = 4 then
    ({ st with realized := st.realized + e.reward_sol,
               staked := st.staked + e.d_stake, unstaked := st.unstaked + e.d_pending }, e.reward_sol)
  else if e.op_type = 5 then
    ({ st with realized := st.realized + e.reward_sol,
               staked := st.staked + e.d_stake, unstaked := st.unstaked + e.d_pending }, e.reward_sol)
  else if e.op_type = 6 then
    (if 0 < |e.d_stake| ∧ 0 < e.unlockPeriodHours ∧ 0 < e.unlockRateTuna then
       { st with schedules := updateSchedules st.schedules (newScheduleOf e) }
     else st, |e.d_stake|)
  else
    ({ st with staked := st.staked + e.d_stake, unstaked := st.unstaked + e.d_pending }, 0)

/-- `rawLocked`: sum of `calculateLockedAmount` over all tracked schedules. -/
def lockedSum (scheds : List VestingSchedule) (t : ℚ) : ℚ :=
  scheds.foldl (fun acc sch => acc + calculateLockedAmount sch t) 0

/-- The TimelinePoint pushed for an event processed in state `st1`
(after the per-type branch): deltas already applied, `locked` clamped to
`staked`, all four fields rounded to 6 decimals. -/
def pointOf (st1 : AccState) (e : StakerEvent) : TimelinePoint :=
  { date := e.timestamp
    staked := round6 st1.staked
    unstaked := round6 st1.unstaked
    locked := round6 (min (lockedSum st1.schedules e.timestamp) st1.staked)
    realized_rewards := round6 st1.realized }

/-- Pushing the TimelinePoint and Operation records for one event. -/
def pushRecords (st1 : AccState) (e : StakerEvent) (amount : ℚ) : AccState :=
  { st1 with
    timeline := st1.timeline ++ [pointOf st1 e]
    operations := st1.operations ++
      [{ date := e.timestamp
         type := (eventTypeInfo e.op_type).1
         type_label := (eventTypeInfo e.op_type).2
         amount := round6 amount
         signature := e.signature
         solscan_url := String.append "https://solscan.io/tx/" e.signature }] }

/-- One iteration of the event loop of `buildBalanceTimeline`
(`if (event.length < 11) continue;` then branch + push). -/
def processEvent (st : AccState) (e : StakerEvent) : AccState :=
  if e.len < 11 then st
  else pushRecords (coreStep st e).1 e (coreStep st e).2

def runAcc (events : List StakerEvent) : AccState :=
  events.foldl processEvent initState

/-- `buildBalanceTimeline`: returns `(timeline, operations, vestingSchedules)`. -/
def buildBalanceTimeline (events : List StakerEvent) :
    List TimelinePoint × List Operation × List VestingSchedule :=
  ((runAcc events).timeline, (runAcc events).operations, (runAcc events).schedules)

/-- The prev-point search of the extender: scan the (unsorted) in-progress
timeline starting from `timeline[0]`, keeping any point with
`point.date <= d && point.date > prev.date`. -/
def findPrevPoint (tl : List TimelinePoint) (d : ℚ) : TimelinePoint :=
  tl.foldl (fun prev p => if p.date ≤ d ∧ prev.date < p.date then p else prev) tl.headI

/-- The synthetic unlock point appended at boundary `d`: carries the
previous point's staked/unstaked/rewards, recomputes only `locked`. -/
def syntheticPoint (scheds : List VestingSchedule) (prev : TimelinePoint) (d : ℚ) : TimelinePoint :=
  { date := d
    staked := prev.staked
    unstaked := prev.unstaked
    locked := round6 (min (lockedSum scheds d) prev.staked)
    realized_rewards := prev.realized_rewards }

/-- Processing of one enumerated unlock boundary: skip if the instant is
already an exact timestamp of the accumulated timeline, else append a
synthetic point. -/
def insertUnlockPoint (scheds : List VestingSchedule) (existing : List ℚ)
    (tl : List TimelinePoint) (d : ℚ) : List TimelinePoint :=
  if d ∈ existing then tl
  else tl ++ [syntheticPoint scheds (findPrevPoint tl d) d]

/-- Unlock boundary instants of one schedule: cliff end plus each period
boundary `i = 0 .. ceil(lockedTuna / unlockRateTuna)`, kept if `≤` the
coverage end instant.  Every schedule reaching this code has a strictly
positive rate (the accumulator guard, see `buildBalanceTimeline_sched_pos`);
with a zero rate the source loop bound `Math.ceil(x / 0)` would be
infinite, whereas the rational model evaluates to 0. -/
def unlockTimesOf (cacheEnd : ℚ) (s : VestingSchedule) : List ℚ :=
  let totalPeriods : ℤ := ⌈s.lockedTuna / s.unlockRateTuna⌉
  let count : ℕ := if totalPeriods < 0 then 0 else totalPeriods.toNat + 1
  ((List.range count).map
    (fun i => s.startTime + s.cliffHours * (60 * 60 * 1000) +
      (i : ℚ) * (s.unlockPeriodHours * (60 * 60 * 1000)))).filter
    (fun u => decide (u ≤ cacheEnd))

/-- `timeline.reduce((latest, p) => p.date > latest.date ? p : latest)`. -/
def lastByDate (tl : List TimelinePoint) : TimelinePoint :=
  tl.foldl (fun latest p => if latest.date < p.date then p else latest) tl.headI

/-- Final chronological sort (`sort` by ISO-string comparison, i.e. by
instant). -/
def sortByDate (tl : List TimelinePoint) : List TimelinePoint :=
  tl.insertionSort (fun a b => a.date ≤ b.date)

/-- The timeline-extension portion of `parseWalletTimeline` (lines
313–413): insert synthetic unlock points, extend to the coverage end,
re-sort; with no vesting schedules, only append a carried-forward point at
the coverage end. `cacheEnd` is the instant `meta.end + "T23:59:59Z"`
(`none` when `meta.end` is absent). -/
def extendTimeline (cacheEnd : Option ℚ) (tl : List TimelinePoint)
    (scheds : List VestingSchedule) : List TimelinePoint :=
  match cacheEnd with
  | none => tl
  | some endT =>
    if tl ≠ [] ∧ scheds ≠ [] then
      let unlockTimes := scheds.foldl (fun acc s => acc ++ unlockTimesOf endT s) []
      let existing := tl.map (fun p => p.date)
      let tl1 := unlockTimes.foldl (insertUnlockPoint scheds existing) tl
      let lastPoint := lastByDate tl1
      let tl2 :=
        if lastPoint.date < endT then tl1 ++ [syntheticPoint scheds lastPoint endT]
        else tl1
      sortByDate tl2
    else if tl ≠ [] then
      let lastPoint := tl.getLastD default
      if lastPoint.date < endT then
        tl ++ [{ date := endT
                 staked := lastPoint.staked
                 unstaked := lastPoint.unstaked
                 locked := lastPoint.locked
                 realized_rewards := lastPoint.realized_rewards }]
      else tl
    else tl

/-- Composition of accumulator and extender: the timeline returned by
`parseWalletTimeline` for a wallet's filtered events. -/
def finalTimeline (cacheEnd : Option ℚ) (events : List StakerEvent) : List TimelinePoint :=
  extendTimeline cacheEnd (runAcc events).timeline (runAcc events).schedules

/-- `days_active` computation of the summary: JavaScript date arithmetic,
where an unparseable date is `Invalid Date` (`getTime()` is NaN) and no
exception is thrown, so NaN propagates through
`Math.floor((last - first) / 86400000) + 1`.  A parse result is modelled
as `Option ℚ` (`none` = invalid). -/
def jsDateGetTime (d : Option ℚ) : JsNum :=
  match d with
  | some q => .finite q
  | none => .nan

/-- IEEE addition for `JsNum` (only the cases reachable here matter). -/
def jsAdd : JsNum → JsNum → JsNum
  | .nan, _ => .nan
  | _, .nan => .nan
  | .finite a, .finite b => .finite (a + b)
  | .posInf, .finite _ => .posInf
  | .negInf, .finite _ => .negInf
  | .finite _, .posInf => .posInf
  | .finite _, .negInf => .negInf
  | .posInf, .posInf => .posInf
  | .negInf, .negInf => .negInf
  | .posInf, .negInf => .nan
  | .negInf, .posInf => .nan

/-- The `days_active` value actually computed by the source:
`Math.floor((lastActivityDt.getTime() - firstDt.getTime()) / (1000*60*60*24)) + 1`.
The surrounding try/catch never fires (none of these operations throw), so
the `timeline.length` default is unconditionally overwritten. -/
def daysActiveCode (firstDate lastActivityDate : Option ℚ) : JsNum :=
  jsAdd
    (jsFloor (jsDiv (jsSub (jsDateGetTime lastActivityDate) (jsDateGetTime firstDate))
      (.finite (1000 * 60 * 60 * 24))))
    (.finite 1)

/-! ### Helper lemmas: 6-decimal rounding -/

theorem round6_mono {x y : ℚ} (h : x ≤ y) : round6 x ≤ round6 y := by
  unfold round6
  have hf : (⌊x * 1000000 + 1 / 2⌋ : ℤ) ≤ ⌊y * 1000000 + 1 / 2⌋ := by
    apply Int.floor_mono
    have : x * 1000000 ≤ y * 1000000 := by nlinarith
    linarith
  have : ((⌊x * 1000000 + 1 / 2⌋ : ℤ) : ℚ) ≤ ((⌊y * 1000000 + 1 / 2⌋ : ℤ) : ℚ) := by
    exact_mod_cast hf
  linarith

theorem round6_nonneg {x : ℚ} (h : 0 ≤ x) : 0 ≤ round6 x := by
  unfold round6
  have hf : (0 : ℤ) ≤ ⌊x * 1000000 + 1 / 2⌋ := by
    apply Int.le_floor.2
    push_cast
    nlinarith
  have : (0 : ℚ) ≤ ((⌊x * 1000000 + 1 / 2⌋ : ℤ) : ℚ) := by exact_mod_cast hf
  linarith

theorem round6_idem (x : ℚ) : round6 (round6 x) = round6 x := by
  unfold round6
  have h1 : ((⌊x * 1000000 + 1 / 2⌋ : ℤ) : ℚ) / 1000000 * 1000000 =
      ((⌊x * 1000000 + 1 / 2⌋ : ℤ) : ℚ) := by
    field_simp
  rw [h1]
  have h2 : (⌊((⌊x * 1000000 + 1 / 2⌋ : ℤ) : ℚ) + 1 / 2⌋ : ℤ) =
      ⌊x * 1000000 + 1 / 2⌋ + ⌊(1 / 2 : ℚ)⌋ := by
    exact Int.floor_int_add _ _
  rw [h2]
  norm_num

theorem round6_zero : round6 0 = 0 := by
  unfold round6
  norm_num

/-! ### Helper lemmas: locked amounts -/

theorem calculateLockedAmount_nonneg (s : VestingSchedule) (t : ℚ)
    (h : 0 ≤ s.lockedTuna) : 0 ≤ calculateLockedAmount s t := by
  simp only [calculateLockedAmount]
  split
  · exact h
  · exact le_max_left 0 _

theorem lockedSum_nonneg (scheds : List VestingSchedule) (t : ℚ)
    (h : ∀ s ∈ scheds, 0 ≤ s.lockedTuna) : 0 ≤ lockedSum scheds t := by
  unfold lockedSum
  suffices H : ∀ (l : List VestingSchedule) (acc : ℚ), (∀ s ∈ l, 0 ≤ s.lockedTuna) → 0 ≤ acc →
      0 ≤ l.foldl (fun acc sch => acc + calculateLockedAmount sch t) acc by
    exact H scheds 0 h le_rfl
  intro l
  induction l with
  | nil => intro acc _ hacc; simpa using hacc
  | cons s rest ih =>
      intro acc hl hacc
      simp only [List.foldl_cons]
      apply ih
      · intro x hx; exact hl x (List.mem_cons_of_mem _ hx)
      · have := calculateLockedAmount_nonneg s t (hl s (List.mem_cons_self _ _))
        linarith

theorem lockedSum_pair (s1 s2 : VestingSchedule) (t : ℚ) :
    lockedSum [s1, s2] t = calculateLockedAmount s1 t + calculateLockedAmount s2 t := by
  simp [lockedSum]

/-! ### Helper lemmas: schedule-set invariants -/

/-- All schedule parameters registered by the accumulator are positive
(guard at schedule creation). -/
def SchedPos (s : VestingSchedule) : Prop :=
  0 < s.lockedTuna ∧ 0 < s.unlockPeriodHours ∧ 0 < s.unlockRateTuna

instance (s : VestingSchedule) : Decidable (SchedPos s) := by
  unfold SchedPos; infer_instance

theorem updateSchedules_pos {l : List VestingSchedule} {ns : VestingSchedule}
    (hl : ∀ x ∈ l, SchedPos x) (hns : SchedPos ns) :
    ∀ x ∈ updateSchedules l ns, SchedPos x := by
  induction l with
  | nil => intro x hx; simp [updateSchedules] at hx; subst hx; exact hns
  | cons s rest ih =>
      intro x hx
      simp only [updateSchedules] at hx
      split at hx
      · rcases List.mem_cons.1 hx with h | h
        · subst h; exact hns
        · exact hl x (List.mem_cons_of_mem _ h)
      · rcases List.mem_cons.1 hx with h | h
        · subst h; exact hl x (List.mem_cons_self _ _)
        · exact ih (fun y hy => hl y (List.mem_cons_of_mem _ hy)) x h

theorem coreStep_timeline (st : AccState) (e : StakerEvent) :
    ((coreStep st e).1).timeline = st.timeline := by
  unfold coreStep
  split_ifs <;> rfl

theorem coreStep_sched_pos {st : AccState} (e : StakerEvent)
    (h : ∀ x ∈ st.schedules, SchedPos x) :
    ∀ x ∈ ((coreStep st e).1).schedules, SchedPos x := by
  unfold coreStep
  split_ifs with h0 h1 h2 h3 h4 h5 h6 hguard
  · exact h
  · exact h
  · exact h
  · exact h
  · exact h
  · exact h
  · exact updateSchedules_pos h ⟨hguard.1, hguard.2.1, hguard.2.2⟩
  · exact h
  · exact h

theorem pushRecords_schedules (st1 : AccState) (e : StakerEvent) (a : ℚ) :
    (pushRecords st1 e a).schedules = st1.schedules := rfl

theorem pushRecords_staked (st1 : AccState) (e : StakerEvent) (a : ℚ) :
    (pushRecords st1 e a).staked = st1.staked := rfl

theorem pushRecords_unstaked (st1 : AccState) (e : StakerEvent) (a : ℚ) :
    (pushRecords st1 e a).unstaked = st1.unstaked := rfl

theorem pushRecords_realized (st1 : AccState) (e : StakerEvent) (a : ℚ) :
    (pushRecords st1 e a).realized = st1.realized := rfl

theorem pushRecords_timeline (st1 : AccState) (e : StakerEvent) (a : ℚ) :
    (pushRecords st1 e a).timeline = st1.timeline ++ [pointOf st1 e] := rfl

theorem processEvent_sched_pos {st : AccState} (e : StakerEvent)
    (h : ∀ x ∈ st.schedules, SchedPos x) :
    ∀ x ∈ (processEvent st e).schedules, SchedPos x := by
  unfold processEvent
  split
  · exact h
  · rw [pushRecords_schedules]
    exact coreStep_sched_pos e h

theorem foldl_sched_pos (events : List StakerEvent) :
    ∀ st : AccState, (∀ x ∈ st.schedules, SchedPos x) →
      ∀ x ∈ (events.foldl processEvent st).schedules, SchedPos x := by
  induction events with
  | nil => intro st h; simpa using h
  | cons e es ih =>
      intro st h
      simp only [List.foldl_cons]
      exact ih (processEvent st e) (processEvent_sched_pos e h)

theorem buildBalanceTimeline_sched_pos (events : List StakerEvent) :
    ∀ x ∈ (buildBalanceTimeline events).2.2, SchedPos x := by
  have := foldl_sched_pos events initState (by simp [initState])
  simpa [buildBalanceTimeline, runAcc] using this

/-! ### Helper lemmas: per-point invariants -/

/-- Structural invariant of every produced point: `locked ≤ staked`, and
`staked` is a fixed point of the 6-decimal rounding (it was produced by
`round6`). -/
def GoodP (p : TimelinePoint) : Prop :=
  p.locked ≤ p.staked ∧ round6 p.staked = p.staked

/-- Non-negativity of all four numeric fields of a point. -/
def NonnegP (p : TimelinePoint) : Prop :=
  0 ≤ p.staked ∧ 0 ≤ p.unstaked ∧ 0 ≤ p.locked ∧ 0 ≤ p.realized_rewards

/-- Non-negativity of the three running scalar totals of the accumulator. -/
def Nonneg3 (st : AccState) : Prop :=
  0 ≤ st.staked ∧ 0 ≤ st.unstaked ∧ 0 ≤ st.realized

instance (p : TimelinePoint) : Decidable (GoodP p) := by unfold GoodP; infer_instance

instance (p : TimelinePoint) : Decidable (NonnegP p) := by unfold NonnegP; infer_instance

instance (st : AccState) : Decidable (Nonneg3 st) := by unfold Nonneg3; infer_instance

theorem goodP_default : GoodP (default : TimelinePoint) := by
  constructor
  · exact le_rfl
  · exact round6_zero

theorem nonnegP_default : NonnegP (default : TimelinePoint) :=
  ⟨le_rfl, le_rfl, le_rfl, le_rfl⟩

theorem goodP_pointOf (st1 : AccState) (e : StakerEvent) : GoodP (pointOf st1 e) := by
  constructor
  · exact round6_mono (min_le_right _ _)
  · exact round6_idem _

theorem nonnegP_pointOf (st1 : AccState) (e : StakerEvent)
    (hst : 0 ≤ st1.staked) (hun : 0 ≤ st1.unstaked) (hre : 0 ≤ st1.realized)
    (hsc : ∀ x ∈ st1.schedules, 0 ≤ x.lockedTuna) : NonnegP (pointOf st1 e) := by
  refine ⟨round6_nonneg hst, round6_nonneg hun, round6_nonneg ?_, round6_nonneg hre⟩
  exact le_min (lockedSum_nonneg _ _ hsc) hst

theorem processEvent_good {st : AccState} (e : StakerEvent)
    (h : ∀ p ∈ st.timeline, GoodP p) :
    ∀ p ∈ (processEvent st e).timeline, GoodP p := by
  unfold processEvent
  split
  · exact h
  · rw [pushRecords_timeline, coreStep_timeline]
    intro p hp
    rcases List.mem_append.1 hp with h1 | h1
    · exact h p h1
    · rcases List.mem_singleton.1 h1 with rfl
      exact goodP_pointOf _ _

theorem foldl_good (events : List StakerEvent) :
    ∀ st : AccState, (∀ p ∈ st.timeline, GoodP p) →
      ∀ p ∈ (events.foldl processEvent st).timeline, GoodP p := by
  induction events with
  | nil => intro st h; simpa using h
  | cons e es ih =>
      intro st h
      simp only [List.foldl_cons]
      exact ih (processEvent st e) (processEvent_good e h)

theorem processEvent_nonneg {st : AccState} (e : StakerEvent)
    (h : ∀ p ∈ st.timeline, NonnegP p)
    (hpost : Nonneg3 (processEvent st e))
    (hsc : ∀ x ∈ (processEvent st e).schedules, SchedPos x) :
    ∀ p ∈ (processEvent st e).timeline, NonnegP p := by
  by_cases hl : e.len < 11
  · simpa [processEvent, hl] using h
  · have hps : processEvent st e = pushRecords (coreStep st e).1 e (coreStep st e).2 := by
      simp [processEvent, hl]
    rw [hps] at hpost hsc ⊢
    rw [pushRecords_timeline, coreStep_timeline]
    rw [pushRecords_schedules] at hsc
    intro p hp
    rcases List.mem_append.1 hp with h1 | h1
    · exact h p h1
    · rcases List.mem_singleton.1 h1 with rfl
      exact nonnegP_pointOf _ _ hpost.1 hpost.2.1 hpost.2.2
        (fun x hx => le_of_lt (hsc x hx).1)

theorem foldl_nonneg (events : List StakerEvent) :
    ∀ st : AccState, (∀ p ∈ st.timeline, NonnegP p) → (∀ x ∈ st.schedules, SchedPos x) →
      (∀ n, n ≤ events.length → Nonneg3 (List.foldl processEvent st (events.take n))) →
      ∀ p ∈ (events.foldl processEvent st).timeline, NonnegP p := by
  induction events with
  | nil => intro st h _ _; simpa using h
  | cons e es ih =>
      intro st h hsch H
      simp only [List.foldl_cons]
      have h1 : Nonneg3 (processEvent st e) := by
        have := H 1 (by simp)
        simpa using this
      have hsch1 : ∀ x ∈ (processEvent st e).schedules, SchedPos x :=
        processEvent_sched_pos e hsch
      apply ih (processEvent st e)
      · exact processEvent_nonneg e h h1 hsch1
      · exact hsch1
      · intro n hn
        have := H (n + 1) (by simpa using Nat.succ_le_succ hn)
        simpa using this

/-! ### Helper lemmas: extender -/

theorem foldl_choice {α : Type} (f : α → α → α)
    (hf : ∀ a b, f a b = b ∨ f a b = a) :
    ∀ (l : List α) (init : α), l.foldl f init = init ∨ l.foldl f init ∈ l := by
  intro l
  induction l with
  | nil => intro init; left; rfl
  | cons b rest ih =>
      intro init
      simp only [List.foldl_cons]
      rcases ih (f init b) with h | h
      · rcases hf init b with h2 | h2
        · right; rw [h, h2]; exact List.mem_cons_self _ _
        · left; rw [h, h2]
      · right; exact List.mem_cons_of_mem _ h

theorem findPrevPoint_choice (tl : List TimelinePoint) (d : ℚ) :
    findPrevPoint tl d = tl.headI ∨ findPrevPoint tl d ∈ tl := by
  unfold findPrevPoint
  apply foldl_choice
  intro a b
  split
  · left; rfl
  · right; rfl

theorem headI_mem_of_ne_nil {α : Type} [Inhabited α] {l : List α} (h : l ≠ []) :
    l.headI ∈ l := by
  cases l with
  | nil => exact absurd rfl h
  | cons a rest => exact List.mem_cons_self _ _

theorem findPrevPoint_mem {tl : List TimelinePoint} (d : ℚ) (h : tl ≠ []) :
    findPrevPoint tl d ∈ tl := by
  rcases findPrevPoint_choice tl d with h1 | h1
  · rw [h1]; exact headI_mem_of_ne_nil h
  · exact h1

theorem lastByDate_choice (tl : List TimelinePoint) :
    lastByDate tl = tl.headI ∨ lastByDate tl ∈ tl := by
  unfold lastByDate
  apply foldl_choice
  intro a b
  split
  · left; rfl
  · right; rfl

theorem lastByDate_mem {tl : List TimelinePoint} (h : tl ≠ []) : lastByDate tl ∈ tl := by
  rcases lastByDate_choice tl with h1 | h1
  · rw [h1]; exact headI_mem_of_ne_nil h
  · exact h1

theorem getLastD_mem {α : Type} (l : List α) (dflt : α) (h : l ≠ []) :
    l.getLastD dflt ∈ l := by
  induction l with
  | nil => exact absurd rfl h
  | cons a rest ih =>
      cases rest with
      | nil => simp
      | cons b r2 =>
          have : (a :: b :: r2).getLastD dflt = (b :: r2).getLastD dflt := by
            simp [List.getLastD]
          rw [this]
          exact List.mem_cons_of_mem _ (ih (by simp))

theorem headI_P {P : TimelinePoint → Prop} {tl : List TimelinePoint}
    (hdef : P default) (h : ∀ p ∈ tl, P p) : P tl.headI := by
  cases tl with
  | nil => exact hdef
  | cons a rest => exact h a (List.mem_cons_self _ _)

theorem findPrevPoint_P {P : TimelinePoint → Prop} {tl : List TimelinePoint} (d : ℚ)
    (hdef : P default) (h : ∀ p ∈ tl, P p) : P (findPrevPoint tl d) := by
  rcases findPrevPoint_choice tl d with h1 | h1
  · rw [h1]; exact headI_P hdef h
  · exact h _ h1

theorem lastByDate_P {P : TimelinePoint → Prop} {tl : List TimelinePoint}
    (hdef : P default) (h : ∀ p ∈ tl, P p) : P (lastByDate tl) := by
  rcases lastByDate_choice tl with h1 | h1
  · rw [h1]; exact headI_P hdef h
  · exact h _ h1

theorem insertUnlockPoint_P {P : TimelinePoint → Prop} {scheds : List VestingSchedule}
    {existing : List ℚ} {tl : List TimelinePoint} {d : ℚ}
    (hdef : P default)
    (hsyn : ∀ prev d', P prev → P (syntheticPoint scheds prev d'))
    (h : ∀ p ∈ tl, P p) :
    ∀ p ∈ insertUnlockPoint scheds existing tl d, P p := by
  unfold insertUnlockPoint
  split
  · exact h
  · intro p hp
    rcases List.mem_append.1 hp with h1 | h1
    · exact h p h1
    · rcases List.mem_singleton.1 h1 with rfl
      exact hsyn _ _ (findPrevPoint_P d hdef h)

theorem foldl_insertUnlockPoint_P {P : TimelinePoint → Prop} {scheds : List VestingSchedule}
    {existing : List ℚ}
    (hdef : P default)
    (hsyn : ∀ prev d', P prev → P (syntheticPoint scheds prev d')) :
    ∀ (ds : List ℚ) (tl : List TimelinePoint), (∀ p ∈ tl, P p) →
      ∀ p ∈ ds.foldl (insertUnlockPoint scheds existing) tl, P p := by
  intro ds
  induction ds with
  | nil => intro tl h; simpa using h
  | cons d rest ih =>
      intro tl h
      simp only [List.foldl_cons]
      exact ih _ (insertUnlockPoint_P hdef hsyn h)

theorem sortByDate_mem {tl : List TimelinePoint} {p : TimelinePoint} :
    p ∈ sortByDate tl ↔ p ∈ tl := by
  unfold sortByDate
  exact List.mem_insertionSort _

/-- Generic preservation of a per-point property through the timeline
extender. -/
theorem extendTimeline_P {P : TimelinePoint → Prop} (ce : Option ℚ)
    (tl : List TimelinePoint) (scheds : List VestingSchedule)
    (hdef : P default)
    (hsyn : ∀ prev d', P prev → P (syntheticPoint scheds prev d'))
    (hcopy : ∀ prev d', P prev →
      P { date := d', staked := prev.staked, unstaked := prev.unstaked,
          locked := prev.locked, realized_rewards := prev.realized_rewards })
    (h : ∀ p ∈ tl, P p) : ∀ p ∈ extendTimeline ce tl scheds, P p := by
  cases ce with
  | none => simpa [extendTimeline] using h
  | some endT =>
    simp only [extendTimeline]
    by_cases h1 : tl ≠ [] ∧ scheds ≠ []
    · rw [if_pos h1]
      intro p hp
      rw [sortByDate_mem] at hp
      have hfold : ∀ q ∈ (scheds.foldl (fun acc s => acc ++ unlockTimesOf endT s) []).foldl
          (insertUnlockPoint scheds (tl.map (fun p => p.date))) tl, P q :=
        foldl_insertUnlockPoint_P hdef hsyn _ tl h
      split at hp
      · rcases List.mem_append.1 hp with h2 | h2
        · exact hfold p h2
        · rcases List.mem_singleton.1 h2 with rfl
          exact hsyn _ _ (lastByDate_P hdef hfold)
      · exact hfold p hp
    · rw [if_neg h1]
      by_cases h2 : tl ≠ []
      · rw [if_pos h2]
        split
        · intro p hp
          rcases List.mem_append.1 hp with h3 | h3
          · exact h p h3
          · rcases List.mem_singleton.1 h3 with rfl
            exact hcopy _ _ (h _ (getLastD_mem tl default h2))
        · exact h
      · rw [if_neg h2]
        exact h

theorem extendTimeline_good (ce : Option ℚ) (tl : List TimelinePoint)
    (scheds : List VestingSchedule) (h : ∀ p ∈ tl, GoodP p) :
    ∀ p ∈ extendTimeline ce tl scheds, GoodP p := by
  apply extendTimeline_P ce tl scheds goodP_default _ _ h
  · intro prev d' hp
    constructor
    · show round6 (min (lockedSum scheds d') prev.staked) ≤ prev.staked
      calc round6 (min (lockedSum scheds d') prev.staked) ≤ round6 prev.staked :=
            round6_mono (min_le_right _ _)
        _ = prev.staked := hp.2
    · show round6 prev.staked = prev.staked
      exact hp.2
  · intro prev d' hp
    exact ⟨hp.1, hp.2⟩

theorem extendTimeline_nonneg (ce : Option ℚ) (tl : List TimelinePoint)
    (scheds : List VestingSchedule) (hsc : ∀ x ∈ scheds, 0 ≤ x.lockedTuna)
    (h : ∀ p ∈ tl, NonnegP p) :
    ∀ p ∈ extendTimeline ce tl scheds, NonnegP p := by
  apply extendTimeline_P ce tl scheds nonnegP_default _ _ h
  · intro prev d' hp
    refine ⟨hp.1, hp.2.1, round6_nonneg ?_, hp.2.2.2⟩
    exact le_min (lockedSum_nonneg _ _ hsc) hp.1
  · intro prev d' hp
    exact ⟨hp.1, hp.2.1, hp.2.2.1, hp.2.2.2⟩

/-! ### C1 -/

/-- A well-formed stake event with a negative `d_stake`: the accumulator
applies the delta with no lower clamp, driving the running `staked` total
(and hence the pushed point) negative. -/
def c1BadEvent : StakerEvent :=
  { signature := "sig1", timestamp := 0, slot := 0, op_type := 1, address := "w1",
    d_stake := -100, d_pending := 0, d_withdrawn := 0, d_compounded := 0, reward_sol := 0,
    len := 11, cliffHours := 0, unlockPeriodHours := 0, unlockRateTuna := 0 }

/-- C1 counterexample: the claim "all four numeric fields are ≥ 0 for every
input event sequence" fails — a single stake event with `d_stake = -100`
yields a timeline point with `staked = -100 < 0` (the source never clamps
the running totals at zero). -/
theorem c1_counterexample :
    ((buildBalanceTimeline [c1BadEvent]).1.headI).staked = -100 ∧
    ¬ (0 ≤ ((buildBalanceTimeline [c1BadEvent]).1.headI).staked) := by
  have h : ((buildBalanceTimeline [c1BadEvent]).1.headI).staked = -100 := by
    norm_num [buildBalanceTimeline, runAcc, processEvent, c1BadEvent, coreStep,
      pushRecords, pointOf, initState, round6]
  exact ⟨h, by rw [h]; norm_num⟩

/-- C1 (amended): for every input event sequence and coverage end, every
TimelinePoint produced by the balance accumulator and the timeline
extender satisfies `locked ≤ staked`; all four numeric fields are `≥ 0`
provided the running staked/unstaked/realized totals stay non-negative
throughout the replay (which the source does not itself enforce). -/
theorem c1_invariants (events : List StakerEvent) (cacheEnd : Option ℚ) :
    (∀ p ∈ finalTimeline cacheEnd events, p.locked ≤ p.staked) ∧
    ((∀ n, n ≤ events.length → Nonneg3 (runAcc (events.take n))) →
      ∀ p ∈ finalTimeline cacheEnd events,
        0 ≤ p.staked ∧ 0 ≤ p.unstaked ∧ 0 ≤ p.locked ∧ 0 ≤ p.realized_rewards) := by
  constructor
  · intro p hp
    have hg : ∀ q ∈ (runAcc events).timeline, GoodP q :=
      foldl_good events initState (by simp [initState])
    exact (extendTimeline_good cacheEnd _ _ hg p hp).1
  · intro H p hp
    have hsch : ∀ x ∈ (runAcc events).schedules, SchedPos x :=
      foldl_sched_pos events initState (by simp [initState])
    have hn : ∀ q ∈ (runAcc events).timeline, NonnegP q := by
      apply foldl_nonneg events initState (by simp [initState, NonnegP])
        (by simp [initState])
      intro n hnle
      exact H n hnle
    have hres := extendTimeline_nonneg cacheEnd _ _
      (fun x hx => le_of_lt (hsch x hx).1) hn p hp
    exact ⟨hres.1, hres.2.1, hres.2.2.1, hres.2.2.2⟩

/-- A benign stake event used to instantiate hypotheses concretely. -/
def c1WitnessEvent : StakerEvent :=
  { signature := "sigw", timestamp := 0, slot := 0, op_type := 1, address := "w1",
    d_stake := 5, d_pending := 2, d_withdrawn := 0, d_compounded := 0, reward_sol := 0,
    len := 11, cliffHours := 0, unlockPeriodHours := 0, unlockRateTuna := 0 }

theorem c1_invariants_witness :
    ((runAcc [c1WitnessEvent]).timeline.headI.locked ≤
      (runAcc [c1WitnessEvent]).timeline.headI.staked) ∧
    0 ≤ (runAcc [c1WitnessEvent]).timeline.headI.staked := by
  have h := c1_invariants [c1WitnessEvent] none
  have heq : finalTimeline none [c1WitnessEvent] = (runAcc [c1WitnessEvent]).timeline := rfl
  have hne : (runAcc [c1WitnessEvent]).timeline ≠ [] := by
    simp [runAcc, processEvent, c1WitnessEvent, pushRecords]
  have hmem : (runAcc [c1WitnessEvent]).timeline.headI ∈
      finalTimeline none [c1WitnessEvent] := by
    rw [heq]; exact headI_mem_of_ne_nil hne
  have hH : ∀ n, n ≤ [c1WitnessEvent].length → Nonneg3 (runAcc ([c1WitnessEvent].take n)) := by
    intro n hn
    have hn1 : n ≤ 1 := by simpa using hn
    interval_cases n
    · simp [runAcc, initState, Nonneg3]
    · norm_num [runAcc, initState, Nonneg3, processEvent, c1WitnessEvent, coreStep,
        pushRecords]
  exact ⟨h.1 _ hmem, ((h.2 hH) _ hmem).1⟩

/-! ### C2 -/

/-- A well-formed `set_vesting` event carrying non-zero deltas. -/
def c2BadEvent : StakerEvent :=
  { signature := "sig2", timestamp := 0, slot := 0, op_type := 6, address := "w1",
    d_stake := 50, d_pending := 30, d_withdrawn := 0, d_compounded := 0, reward_sol := 0,
    len := 15, cliffHours := 0, unlockPeriodHours := 24, unlockRateTuna := 10 }

/-- C2 counterexample: for a `set_vesting` event (ordinal 6) the
accumulator does NOT apply `d_stake`/`d_pending` — starting from zero
totals, the produced point still has `staked = 0` and `unstaked = 0`,
whereas unconditional application would give `50` and `30`. -/
theorem c2_counterexample :
    ((buildBalanceTimeline [c2BadEvent]).1.headI).staked = 0 ∧
    ((buildBalanceTimeline [c2BadEvent]).1.headI).unstaked = 0 ∧
    (0 : ℚ) + c2BadEvent.d_stake = 50 ∧ (0 : ℚ) ≠ 50 ∧
    (0 : ℚ) + c2BadEvent.d_pending = 30 ∧ (0 : ℚ) ≠ 30 := by
  refine ⟨?_, ?_, by norm_num [c2BadEvent], by norm_num, by norm_num [c2BadEvent], by norm_num⟩
  · norm_num [buildBalanceTimeline, runAcc, processEvent, c2BadEvent, coreStep,
      pushRecords, pointOf, initState, round6, abs_pos]
  · norm_num [buildBalanceTimeline, runAcc, processEvent, c2BadEvent, coreStep,
      pushRecords, pointOf, initState, round6, abs_pos]

/-- C2 (amended): for every well-formed event (≥ 11 fields) of every type
except `set_vesting` (ordinal 6) — the six other known ordinals and any
unknown ordinal — the accumulator adds `d_stake` to `staked` and
`d_pending` to `unstaked`; a `set_vesting` event leaves both running
totals unchanged. -/
theorem c2_deltas (st : AccState) (e : StakerEvent) (h11 : ¬ (e.len < 11)) :
    (e.op_type ≠ 6 →
      (processEvent st e).staked = st.staked + e.d_stake ∧
      (processEvent st e).unstaked = st.unstaked + e.d_pending) ∧
    (e.op_type = 6 →
      (processEvent st e).staked = st.staked ∧
      (processEvent st e).unstaked = st.unstaked) := by
  have hps : processEvent st e = pushRecords (coreStep st e).1 e (coreStep st e).2 := by
    simp [processEvent, h11]
  rw [hps, pushRecords_staked, pushRecords_unstaked]
  constructor
  · intro h6
    unfold coreStep
    split_ifs <;> first | exact ⟨rfl, rfl⟩ | omega
  · intro h6
    unfold coreStep
    split_ifs <;> first | exact ⟨rfl, rfl⟩ | omega

theorem c2_deltas_witness :
    ((processEvent initState c1WitnessEvent).staked = initState.staked + c1WitnessEvent.d_stake ∧
      (processEvent initState c1WitnessEvent).unstaked =
        initState.unstaked + c1WitnessEvent.d_pending) ∧
    (processEvent initState c2BadEvent).staked = initState.staked := by
  refine ⟨(c2_deltas initState c1WitnessEvent (by decide)).1 (by decide), ?_⟩
  exact ((c2_deltas initState c2BadEvent (by decide)).2 (by decide)).1

/-! ### C3 -/

/-- Unfolded form of `calculateLockedAmount`. -/
theorem calculateLockedAmount_eq (s : VestingSchedule) (t : ℚ) :
    calculateLockedAmount s t =
      if (t - s.startTime) / (1000 * 60 * 60) < s.cliffHours then s.lockedTuna
      else max 0 (s.lockedTuna -
        (⌊((t - s.startTime) / (1000 * 60 * 60) - s.cliffHours) / s.unlockPeriodHours⌋ : ℚ) *
          s.unlockRateTuna) := rfl

/-- The schedule of the spec's vesting boundary test. -/
def c3Schedule (T0 : ℚ) : VestingSchedule :=
  { startTime := T0, lockedTuna := 250, cliffHours := 24,
    unlockPeriodHours := 24, unlockRateTuna := 100 }

/-- C3 (confirmed): for `cliffHours=24, unlockPeriodHours=24,
unlockRateAmount=100, lockedAmount=250` starting at `T0`,
`calculateLockedAmount` returns 250 strictly before `T0+24h`, 150 at
`T0+48h`, 50 at `T0+72h`, and 0 at and after `T0+96h` (times in ms). -/
theorem c3_boundaries (T0 t : ℚ) :
    (t < T0 + 24 * 3600000 → calculateLockedAmount (c3Schedule T0) t = 250) ∧
    calculateLockedAmount (c3Schedule T0) (T0 + 48 * 3600000) = 150 ∧
    calculateLockedAmount (c3Schedule T0) (T0 + 72 * 3600000) = 50 ∧
    (T0 + 96 * 3600000 ≤ t → calculateLockedAmount (c3Schedule T0) t = 0) := by
  refine ⟨?_, ?_, ?_, ?_⟩
  · intro h
    rw [calculateLockedAmount_eq, if_pos]
    · simp [c3Schedule]
    · show (t - (c3Schedule T0).startTime) / (1000 * 60 * 60) < (c3Schedule T0).cliffHours
      simp only [c3Schedule]
      rw [div_lt_iff₀ (by norm_num : (0 : ℚ) < 1000 * 60 * 60)]
      linarith
  · rw [calculateLockedAmount_eq]
    norm_num [c3Schedule, add_sub_cancel_left]
  · rw [calculateLockedAmount_eq]
    norm_num [c3Schedule, add_sub_cancel_left]
  · intro h
    have hE : (96 : ℚ) ≤ (t - T0) / (1000 * 60 * 60) := by
      rw [le_div_iff₀ (by norm_num : (0 : ℚ) < 1000 * 60 * 60)]
      linarith
    rw [calculateLockedAmount_eq, if_neg]
    · simp only [c3Schedule]
      have hfl : (3 : ℤ) ≤ ⌊((t - T0) / (1000 * 60 * 60) - 24) / 24⌋ := by
        apply Int.le_floor.2
        push_cast
        rw [le_div_iff₀ (by norm_num : (0 : ℚ) < 24)]
        linarith
      have hc : (3 : ℚ) ≤ ((⌊((t - T0) / (1000 * 60 * 60) - 24) / 24⌋ : ℤ) : ℚ) := by
        exact_mod_cast hfl
      have hneg : (250 : ℚ) -
          ((⌊((t - T0) / (1000 * 60 * 60) - 24) / 24⌋ : ℤ) : ℚ) * 100 ≤ 0 := by
        nlinarith
      exact max_eq_left hneg
    · simp only [c3Schedule]
      exact not_lt.2 (by linarith)

theorem c3_boundaries_witness :
    calculateLockedAmount (c3Schedule 0) 0 = 250 ∧
    calculateLockedAmount (c3Schedule 0) (0 + 48 * 3600000) = 150 ∧
    calculateLockedAmount (c3Schedule 0) (0 + 72 * 3600000) = 50 ∧
    calculateLockedAmount (c3Schedule 0) (400000000 : ℚ) = 0 := by
  refine ⟨(c3_boundaries 0 0).1 (by norm_num), (c3_boundaries 0 0).2.1,
    (c3_boundaries 0 0).2.2.1, (c3_boundaries 0 400000000).2.2.2 (by norm_num)⟩

/-! ### C4 -/

/-- C4 (confirmed): when the schedule set active after processing a
well-formed event is exactly `[s1, s2]`, the pushed timeline point's
`locked` equals the 6-decimal rounding of the pointwise sum of the two
schedules' independent `calculateLockedAmount` curves at the event
instant, clamped above by the running `staked` total (whose rounding is
the point's `staked` value). -/
theorem c4_two_schedule_additivity (st : AccState) (e : StakerEvent) (s1 s2 : VestingSchedule)
    (h11 : ¬ (e.len < 11)) (hs : (processEvent st e).schedules = [s1, s2]) :
    (processEvent st e).timeline = st.timeline ++
      [{ date := e.timestamp
         staked := round6 (processEvent st e).staked
         unstaked := round6 (processEvent st e).unstaked
         locked := round6 (min (calculateLockedAmount s1 e.timestamp +
           calculateLockedAmount s2 e.timestamp) (processEvent st e).staked)
         realized_rewards := round6 (processEvent st e).realized }] := by
  have hps : processEvent st e = pushRecords (coreStep st e).1 e (coreStep st e).2 := by
    simp [processEvent, h11]
  rw [hps] at hs ⊢
  rw [pushRecords_schedules] at hs
  rw [pushRecords_timeline, pushRecords_staked, pushRecords_unstaked, pushRecords_realized,
    coreStep_timeline]
  unfold pointOf
  rw [hs, lockedSum_pair]

/-- First concrete schedule for the C4 witness. -/
def c4S1 : VestingSchedule :=
  { startTime := 0, lockedTuna := 100, cliffHours := 24, unlockPeriodHours := 24,
    unlockRateTuna := 10 }

/-- Second concrete schedule for the C4 witness. -/
def c4S2 : VestingSchedule :=
  { startTime := 0, lockedTuna := 200, cliffHours := 48, unlockPeriodHours := 24,
    unlockRateTuna := 20 }

/-- Concrete accumulator state holding exactly two schedules. -/
def c4State : AccState :=
  { staked := 1000, unstaked := 0, realized := 0, schedules := [c4S1, c4S2],
    timeline := [], operations := [] }

theorem c4_two_schedule_additivity_witness :
    (processEvent c4State c1WitnessEvent).timeline = c4State.timeline ++
      [{ date := c1WitnessEvent.timestamp
         staked := round6 (processEvent c4State c1WitnessEvent).staked
         unstaked := round6 (processEvent c4State c1WitnessEvent).unstaked
         locked := round6 (min (calculateLockedAmount c4S1 c1WitnessEvent.timestamp +
           calculateLockedAmount c4S2 c1WitnessEvent.timestamp)
           (processEvent c4State c1WitnessEvent).staked)
         realized_rewards := round6 (processEvent c4State c1WitnessEvent).realized }] :=
  c4_two_schedule_additivity c4State c1WitnessEvent c4S1 c4S2
    (by norm_num [c1WitnessEvent]) rfl

/-! ### C5 -/

/-- Unfolded form of `calcLockedAmountJs`. -/
theorem calcLockedAmountJs_eq (s : VestingSchedule) (t : ℚ) :
    calcLockedAmountJs s t =
      if (t - s.startTime) / (1000 * 60 * 60) < s.cliffHours then .finite s.lockedTuna
      else jsMax (.finite 0) (jsSub (.finite s.lockedTuna)
        (jsMul (jsFloor (jsDiv
          (.finite ((t - s.startTime) / (1000 * 60 * 60) - s.cliffHours))
          (.finite s.unlockPeriodHours))) (.finite s.unlockRateTuna))) := rfl

/-- A schedule with a zero unlock period and zero unlock rate. -/
def c5BadSchedule : VestingSchedule :=
  { startTime := 0, lockedTuna := 100, cliffHours := 1, unlockPeriodHours := 0,
    unlockRateTuna := 0 }

/-- C5 counterexample: `calculateLockedAmount` itself has no
division-by-zero guard.  For a schedule with `unlockPeriodHours = 0` and
`unlockRateTuna = 0`, evaluated 2 hours in (after the 1-hour cliff), the
JavaScript computation is `floor(1 / 0) * 0 = Infinity * 0 = NaN`, so the
result is NaN — not the full `lockedAmount` and not well-defined. -/
theorem c5_counterexample :
    calcLockedAmountJs c5BadSchedule 7200000 = JsNum.nan ∧
    JsNum.nan ≠ JsNum.finite c5BadSchedule.lockedTuna ∧
    c5BadSchedule.unlockPeriodHours = 0 ∧ c5BadSchedule.unlockRateTuna = 0 := by
  refine ⟨?_, by simp, by norm_num [c5BadSchedule], by norm_num [c5BadSchedule]⟩
  rw [calcLockedAmountJs_eq]
  norm_num [c5BadSchedule, jsDiv, jsFloor, jsMul, jsSub, jsMax]

/-- A schedule with a zero rate but positive period. -/
def c5RateZero : VestingSchedule :=
  { startTime := 0, lockedTuna := 100, cliffHours := 1, unlockPeriodHours := 24,
    unlockRateTuna := 0 }

/-- C5 (amended): the division-by-zero guard lives in the caller, not in
`calculateLockedAmount`: (1) `buildBalanceTimeline` registers only
schedules whose locked amount, unlock period and unlock rate are all
strictly positive, so the function is never evaluated on a zero-period
schedule by the pipeline; (2) for every schedule with a non-zero unlock
period the IEEE computation is finite (non-NaN) and agrees with the exact
rational model; (3) for `unlockRateAmount = 0` with a non-zero period the
function does return the full (non-negative) `lockedAmount` at every
instant. -/
theorem c5_guarded :
    (∀ events : List StakerEvent, ∀ s ∈ (buildBalanceTimeline events).2.2,
      0 < s.lockedTuna ∧ 0 < s.unlockPeriodHours ∧ 0 < s.unlockRateTuna) ∧
    (∀ (s : VestingSchedule) (t : ℚ), s.unlockPeriodHours ≠ 0 →
      calcLockedAmountJs s t = JsNum.finite (calculateLockedAmount s t)) ∧
    (∀ (s : VestingSchedule) (t : ℚ), s.unlockPeriodHours ≠ 0 → s.unlockRateTuna = 0 →
      0 ≤ s.lockedTuna → calculateLockedAmount s t = s.lockedTuna) := by
  refine ⟨?_, ?_, ?_⟩
  · intro events s hs
    exact buildBalanceTimeline_sched_pos events s hs
  · intro s t hp
    rw [calcLockedAmountJs_eq, calculateLockedAmount_eq]
    split
    · rfl
    · simp [jsDiv, hp, jsFloor, jsMul, jsSub, jsMax]
  · intro s t hp hr hl
    rw [calculateLockedAmount_eq]
    split
    · rfl
    · rw [hr]
      simpa using max_eq_right hl

theorem c5_guarded_witness :
    (0 < (newScheduleOf c2BadEvent).lockedTuna ∧
      0 < (newScheduleOf c2BadEvent).unlockPeriodHours ∧
      0 < (newScheduleOf c2BadEvent).unlockRateTuna) ∧
    calcLockedAmountJs (c3Schedule 0) 0 = JsNum.finite (calculateLockedAmount (c3Schedule 0) 0) ∧
    calculateLockedAmount c5RateZero 7200000 = c5RateZero.lockedTuna := by
  refine ⟨?_, ?_, ?_⟩
  · apply c5_guarded.1 [c2BadEvent]
    rw [show (buildBalanceTimeline [c2BadEvent]).2.2 = [newScheduleOf c2BadEvent] from ?_]
    · exact List.mem_singleton_self _
    · norm_num [buildBalanceTimeline, runAcc, processEvent, c2BadEvent, coreStep,
        pushRecords, initState, updateSchedules, abs_pos]
  · exact c5_guarded.2.1 (c3Schedule 0) 0 (by norm_num [c3Schedule])
  · exact c5_guarded.2.2 c5RateZero 7200000 (by norm_num [c5RateZero])
      (by norm_num [c5RateZero]) (by norm_num [c5RateZero])

/-! ### C6 -/

theorem updateSchedules_append {l : List VestingSchedule} {ns : VestingSchedule}
    (h : ∀ x ∈ l, x.lockedTuna ≠ ns.lockedTuna) : updateSchedules l ns = l ++ [ns] := by
  induction l with
  | nil => rfl
  | cons s rest ih =>
      simp only [updateSchedules]
      rw [if_neg (h s (List.mem_cons_self _ _)),
        ih (fun x hx => h x (List.mem_cons_of_mem _ hx)), List.cons_append]

theorem updateSchedules_replace {l₁ l₂ : List VestingSchedule} {x ns : VestingSchedule}
    (h1 : ∀ y ∈ l₁, y.lockedTuna ≠ ns.lockedTuna) (hx : x.lockedTuna = ns.lockedTuna) :
    updateSchedules (l₁ ++ x :: l₂) ns = l₁ ++ ns :: l₂ := by
  induction l₁ with
  | nil => simp [updateSchedules, hx]
  | cons a rest ih =>
      have hrec := ih (fun y hy => h1 y (List.mem_cons_of_mem _ hy))
      show updateSchedules ((a :: rest) ++ x :: l₂) ns = (a :: rest) ++ ns :: l₂
      rw [List.cons_append, List.cons_append]
      simp only [updateSchedules]
      rw [if_neg (h1 a (List.mem_cons_self _ _))]
      exact congrArg (a :: ·) hrec

/-- C6 (confirmed): a well-formed `set_vesting` event whose extracted
locked amount (`|d_stake|`), unlock period and unlock rate are all
strictly positive replaces in place the first existing schedule whose
`lockedTuna` exactly equals the new locked amount, and otherwise appends a
new schedule; an event failing the positivity test leaves the schedule set
unchanged. -/
theorem c6_set_vesting (st : AccState) (e : StakerEvent) (h11 : ¬ (e.len < 11))
    (h6 : e.op_type = 6) :
    ((0 < |e.d_stake| ∧ 0 < e.unlockPeriodHours ∧ 0 < e.unlockRateTuna) →
      ((∀ x ∈ st.schedules, x.lockedTuna ≠ |e.d_stake|) →
        (processEvent st e).schedules = st.schedules ++ [newScheduleOf e]) ∧
      (∀ (l₁ l₂ : List VestingSchedule) (x : VestingSchedule),
        st.schedules = l₁ ++ x :: l₂ → (∀ y ∈ l₁, y.lockedTuna ≠ |e.d_stake|) →
        x.lockedTuna = |e.d_stake| →
        (processEvent st e).schedules = l₁ ++ newScheduleOf e :: l₂)) ∧
    (¬ (0 < |e.d_stake| ∧ 0 < e.unlockPeriodHours ∧ 0 < e.unlockRateTuna) →
      (processEvent st e).schedules = st.schedules) := by
  have hps : (processEvent st e).schedules = (coreStep st e).1.schedules := by
    simp [processEvent, h11, pushRecords_schedules]
  have hcs : (coreStep st e).1.schedules =
      if 0 < |e.d_stake| ∧ 0 < e.unlockPeriodHours ∧ 0 < e.unlockRateTuna then
        updateSchedules st.schedules (newScheduleOf e)
      else st.schedules := by
    simp only [coreStep, h6]
    norm_num
    split <;> rfl
  constructor
  · intro hg
    constructor
    · intro hnone
      rw [hps, hcs, if_pos hg]
      exact updateSchedules_append hnone
    · intro l₁ l₂ x hsplit h1 hx
      rw [hps, hcs, if_pos hg, hsplit]
      exact updateSchedules_replace h1 hx
  · intro hg
    rw [hps, hcs, if_neg hg]

/-- Accumulator state with one schedule locking 30 (for the replace path). -/
def c6StateR : AccState :=
  { staked := 0, unstaked := 0, realized := 0,
    schedules := [{ startTime := 0, lockedTuna := 30, cliffHours := 0,
                    unlockPeriodHours := 1, unlockRateTuna := 1 }],
    timeline := [], operations := [] }

/-- Accumulator state with one schedule locking 40 (for the append path). -/
def c6StateA : AccState :=
  { staked := 0, unstaked := 0, realized := 0,
    schedules := [{ startTime := 0, lockedTuna := 40, cliffHours := 0,
                    unlockPeriodHours := 1, unlockRateTuna := 1 }],
    timeline := [], operations := [] }

/-- A `set_vesting` event locking 30 with positive period and rate. -/
def c6Event : StakerEvent :=
  { signature := "sig6", timestamp := 99, slot := 0, op_type := 6, address := "w1",
    d_stake := 30, d_pending := 0, d_withdrawn := 0, d_compounded := 0, reward_sol := 0,
    len := 15, cliffHours := 2, unlockPeriodHours := 24, unlockRateTuna := 5 }

/-- A `set_vesting` event failing the positivity test (zero rate). -/
def c6NoEvent : StakerEvent :=
  { signature := "sig6b", timestamp := 99, slot := 0, op_type := 6, address := "w1",
    d_stake := 30, d_pending := 0, d_withdrawn := 0, d_compounded := 0, reward_sol := 0,
    len := 15, cliffHours := 2, unlockPeriodHours := 24, unlockRateTuna := 0 }

theorem c6_set_vesting_witness :
    (processEvent c6StateR c6Event).schedules = [] ++ newScheduleOf c6Event :: [] ∧
    (processEvent c6StateA c6Event).schedules = c6StateA.schedules ++ [newScheduleOf c6Event] ∧
    (processEvent c6StateR c6NoEvent).schedules = c6StateR.schedules := by
  refine ⟨?_, ?_, ?_⟩
  · exact ((c6_set_vesting c6StateR c6Event (by norm_num [c6Event])
      (by norm_num [c6Event])).1 (by norm_num [c6Event, abs_pos])).2 [] []
      { startTime := 0, lockedTuna := 30, cliffHours := 0,
        unlockPeriodHours := 1, unlockRateTuna := 1 }
      rfl (by simp) (by norm_num [c6Event])
  · exact ((c6_set_vesting c6StateA c6Event (by norm_num [c6Event])
      (by norm_num [c6Event])).1 (by norm_num [c6Event, abs_pos])).1
      (by intro x hx; simp [c6StateA] at hx; subst hx; norm_num [c6Event])
  · exact (c6_set_vesting c6StateR c6NoEvent (by norm_num [c6NoEvent])
      (by norm_num [c6NoEvent])).2 (by norm_num [c6NoEvent])

/-! ### C7 -/

theorem foldl_prev_date_le (d : ℚ) :
    ∀ (l : List TimelinePoint) (init : TimelinePoint), init.date ≤ d →
      (l.foldl (fun prev p => if p.date ≤ d ∧ prev.date < p.date then p else prev) init).date ≤ d := by
  intro l
  induction l with
  | nil => intro init h; exact h
  | cons p rest ih =>
      intro init h
      simp only [List.foldl_cons]
      by_cases hc : p.date ≤ d ∧ init.date < p.date
      · rw [if_pos hc]; exact ih _ hc.1
      · rw [if_neg hc]; exact ih _ h

theorem foldl_prev_date_ge (d : ℚ) :
    ∀ (l : List TimelinePoint) (init : TimelinePoint), init.date ≤
      (l.foldl (fun prev p => if p.date ≤ d ∧ prev.date < p.date then p else prev) init).date := by
  intro l
  induction l with
  | nil => intro init; exact le_rfl
  | cons p rest ih =>
      intro init
      simp only [List.foldl_cons]
      by_cases hc : p.date ≤ d ∧ init.date < p.date
      · rw [if_pos hc]; exact le_of_lt (lt_of_lt_of_le hc.2 (ih p))
      · rw [if_neg hc]; exact ih init

theorem foldl_prev_max (d : ℚ) :
    ∀ (l : List TimelinePoint) (init : TimelinePoint), ∀ q ∈ l, q.date ≤ d →
      q.date ≤
        (l.foldl (fun prev p => if p.date ≤ d ∧ prev.date < p.date then p else prev) init).date := by
  intro l
  induction l with
  | nil => intro init q hq; exact absurd hq (List.not_mem_nil q)
  | cons p rest ih =>
      intro init q hq hqd
      simp only [List.foldl_cons]
      rcases List.mem_cons.1 hq with h1 | h1
      · subst h1
        refine le_trans ?_ (foldl_prev_date_ge d rest _)
        by_cases hc : q.date ≤ d ∧ init.date < q.date
        · rw [if_pos hc]
        · rw [if_neg hc]
          rcases not_and_or.1 hc with h2 | h2
          · exact absurd hqd h2
          · exact le_of_not_lt h2
      · exact ih _ q h1 hqd

theorem insertUnlockPoint_extends (scheds : List VestingSchedule) (existing : List ℚ)
    (tl : List TimelinePoint) (d : ℚ) :
    ∃ added, insertUnlockPoint scheds existing tl d = tl ++ added := by
  unfold insertUnlockPoint
  split
  · exact ⟨[], (List.append_nil tl).symm⟩
  · exact ⟨_, rfl⟩

theorem foldl_insertUnlockPoint_extends (scheds : List VestingSchedule) (existing : List ℚ) :
    ∀ (ds : List ℚ) (tl : List TimelinePoint),
      ∃ added, ds.foldl (insertUnlockPoint scheds existing) tl = tl ++ added := by
  intro ds
  induction ds with
  | nil => intro tl; exact ⟨[], (List.append_nil tl).symm⟩
  | cons d rest ih =>
      intro tl
      simp only [List.foldl_cons]
      obtain ⟨a, ha⟩ := insertUnlockPoint_extends scheds existing tl d
      obtain ⟨b, hb⟩ := ih (insertUnlockPoint scheds existing tl d)
      exact ⟨a ++ b, by rw [hb, ha, List.append_assoc]⟩

/-- C7 (confirmed): for an unlock boundary `d` not already present as an
exact timestamp, the extender appends (and only appends — every already
produced point is left unmodified, and the whole insertion loop only ever
appends) one synthetic point carrying the staked/unstaked/rewards of the
point found by the prev-point scan, recomputing only `locked`; whenever
the first point of the (unsorted) in-progress timeline does not postdate
`d`, that scan result is exactly the chronologically nearest preceding
(or simultaneous) point: it is a member of the timeline, dated `≤ d`, and
no member dated `≤ d` is dated later. -/
theorem c7_synthetic_points (scheds : List VestingSchedule) (existing : List ℚ)
    (tl : List TimelinePoint) (d : ℚ) (hne : tl ≠ []) :
    (tl.headI.date ≤ d →
      findPrevPoint tl d ∈ tl ∧ (findPrevPoint tl d).date ≤ d ∧
      ∀ q ∈ tl, q.date ≤ d → q.date ≤ (findPrevPoint tl d).date) ∧
    (d ∉ existing → insertUnlockPoint scheds existing tl d =
      tl ++ [syntheticPoint scheds (findPrevPoint tl d) d]) ∧
    (d ∈ existing → insertUnlockPoint scheds existing tl d = tl) ∧
    (∀ ds : List ℚ, ∃ added, ds.foldl (insertUnlockPoint scheds existing) tl = tl ++ added) := by
  refine ⟨?_, ?_, ?_, ?_⟩
  · intro hhead
    refine ⟨findPrevPoint_mem d hne, ?_, ?_⟩
    · exact foldl_prev_date_le d tl tl.headI hhead
    · exact foldl_prev_max d tl tl.headI
  · intro hnot
    unfold insertUnlockPoint
    rw [if_neg hnot]
  · intro hmem
    unfold insertUnlockPoint
    rw [if_pos hmem]
  · exact fun ds => foldl_insertUnlockPoint_extends scheds existing ds tl

/-- Concrete in-progress point for the C7 witness. -/
def c7Point : TimelinePoint :=
  { date := 0, staked := 11, unstaked := 22, locked := 0, realized_rewards := 33 }

theorem c7_synthetic_points_witness :
    findPrevPoint [c7Point] 5 ∈ [c7Point] ∧
    insertUnlockPoint [] [1] [c7Point] 5 =
      [c7Point] ++ [syntheticPoint [] (findPrevPoint [c7Point] 5) 5] ∧
    insertUnlockPoint [] [5] [c7Point] 5 = [c7Point] := by
  have h1 := c7_synthetic_points [] [1] [c7Point] 5 (by simp)
  have h2 := c7_synthetic_points [] [5] [c7Point] 5 (by simp)
  refine ⟨(h1.1 (by norm_num [c7Point])).1, h1.2.1 (by norm_num), h2.2.2.1 (by norm_num)⟩

/-! ### C8 -/

/-- C8 (confirmed): for an accumulated timeline of exactly one point, no
vesting schedules, and a coverage end strictly later than that point's
timestamp, the final timeline has exactly 2 points, the second dated at
the coverage end with staked/unstaked/locked/realized_rewards copied from
the first. -/
theorem c8_no_vesting_extension (pt : TimelinePoint) (endT : ℚ) (h : pt.date < endT) :
    extendTimeline (some endT) [pt] [] =
      [pt, { date := endT, staked := pt.staked, unstaked := pt.unstaked,
             locked := pt.locked, realized_rewards := pt.realized_rewards }] ∧
    (extendTimeline (some endT) [pt] []).length = 2 := by
  have heq : extendTimeline (some endT) [pt] [] =
      [pt, { date := endT, staked := pt.staked, unstaked := pt.unstaked,
             locked := pt.locked, realized_rewards := pt.realized_rewards }] := by
    simp only [extendTimeline]
    rw [if_neg (by simp : ¬(([pt] : List TimelinePoint) ≠ [] ∧ ([] : List VestingSchedule) ≠ []))]
    rw [if_pos (by simp : ([pt] : List TimelinePoint) ≠ [])]
    rw [show ([pt] : List TimelinePoint).getLastD default = pt from rfl, if_pos h]
    rfl
  exact ⟨heq, by rw [heq]; rfl⟩

/-- Concrete single accumulated point for the C8 witness. -/
def c8Point : TimelinePoint :=
  { date := 3, staked := 7, unstaked := 1, locked := 2, realized_rewards := 4 }

theorem c8_no_vesting_extension_witness :
    extendTimeline (some 10) [c8Point] [] =
      [c8Point, { date := 10, staked := c8Point.staked, unstaked := c8Point.unstaked,
                  locked := c8Point.locked, realized_rewards := c8Point.realized_rewards }] ∧
    (extendTimeline (some 10) [c8Point] []).length = 2 :=
  c8_no_vesting_extension c8Point 10 (by norm_num [c8Point])

/-! ### C9 -/

/-- C9 (code bug): `new Date(...)` never throws — an unparseable date is
`Invalid Date` with `getTime() = NaN` — so the try/catch fallback to the
timeline length is dead code and `days_active` becomes NaN whenever either
instant fails to parse; when both instants parse the value is
`floor((last − first) / 1 day) + 1` as claimed. -/
theorem c9_days_active :
    daysActiveCode none (some 0) = JsNum.nan ∧
    daysActiveCode (some 0) none = JsNum.nan ∧
    daysActiveCode none none = JsNum.nan ∧
    (∀ n : ℕ, JsNum.nan ≠ JsNum.finite n) ∧
    (∀ a b : ℚ, daysActiveCode (some a) (some b) =
      JsNum.finite ((⌊(b - a) / (1000 * 60 * 60 * 24)⌋ : ℤ) + 1)) := by
  refine ⟨rfl, rfl, rfl, fun n h => JsNum.noConfusion h, ?_⟩
  intro a b
  norm_num [daysActiveCode, jsDateGetTime, jsSub, jsDiv, jsFloor, jsAdd]

/-! ### C10 -/

/-- A schedule with negative `lockedTuna` but the cliff/period/rate
constraints of the claim satisfied. -/
def c10Bad : VestingSchedule :=
  { startTime := 0, lockedTuna := -5, cliffHours := 1, unlockPeriodHours := 1,
    unlockRateTuna := 0 }

/-- C10 counterexample: the claim omits any constraint on `lockedAmount`.
With `lockedAmount = -5` (and `cliffHours = 1 ≥ 0`,
`unlockPeriodHours = 1 > 0`, `unlockRateTuna = 0 ≥ 0`),
`calculateLockedAmount` returns −5 during the cliff — outside `[0, lockedAmount]`
— and then 0 after the cliff, so the function strictly increases. -/
theorem c10_counterexample :
    (0 ≤ c10Bad.cliffHours ∧ 0 < c10Bad.unlockPeriodHours ∧ 0 ≤ c10Bad.unlockRateTuna) ∧
    calculateLockedAmount c10Bad 0 = -5 ∧
    calculateLockedAmount c10Bad 7200000 = 0 ∧
    ¬ (calculateLockedAmount c10Bad 7200000 ≤ calculateLockedAmount c10Bad 0) ∧
    ¬ (0 ≤ calculateLockedAmount c10Bad 0) := by
  have h0 : calculateLockedAmount c10Bad 0 = -5 := by
    rw [calculateLockedAmount_eq]
    norm_num [c10Bad]
  have h2 : calculateLockedAmount c10Bad 7200000 = 0 := by
    rw [calculateLockedAmount_eq]
    norm_num [c10Bad, max_def]
  exact ⟨by norm_num [c10Bad], h0, h2, by rw [h0, h2]; norm_num, by rw [h0]; norm_num⟩

/-- C10 (amended): for every schedule with `cliffHours ≥ 0`,
`unlockPeriodHours > 0`, `unlockRateTuna ≥ 0` and additionally
`lockedTuna ≥ 0`, `calculateLockedAmount` is monotonically nonincreasing
in the instant, returns the full `lockedTuna` at every instant at or
before `startTime`, and its value always lies in `[0, lockedTuna]`. -/
theorem c10_monotone (s : VestingSchedule) (t t' : ℚ)
    (hc : 0 ≤ s.cliffHours) (hp : 0 < s.unlockPeriodHours) (hr : 0 ≤ s.unlockRateTuna)
    (hl : 0 ≤ s.lockedTuna) :
    (t ≤ t' → calculateLockedAmount s t' ≤ calculateLockedAmount s t) ∧
    (t ≤ s.startTime → calculateLockedAmount s t = s.lockedTuna) ∧
    0 ≤ calculateLockedAmount s t ∧ calculateLockedAmount s t ≤ s.lockedTuna := by
  have hms : (0 : ℚ) < 1000 * 60 * 60 := by norm_num
  refine ⟨?_, ?_, ?_⟩
  · intro htt
    have hE : (t - s.startTime) / (1000 * 60 * 60) ≤ (t' - s.startTime) / (1000 * 60 * 60) :=
      div_le_div_of_nonneg_right (by linarith) hms.le
    rw [calculateLockedAmount_eq, calculateLockedAmount_eq]
    by_cases h1 : (t - s.startTime) / (1000 * 60 * 60) < s.cliffHours
    · rw [if_pos h1]
      by_cases h2 : (t' - s.startTime) / (1000 * 60 * 60) < s.cliffHours
      · rw [if_pos h2]
      · rw [if_neg h2]
        have hk : (0 : ℚ) ≤
            ((⌊((t' - s.startTime) / (1000 * 60 * 60) - s.cliffHours) / s.unlockPeriodHours⌋ :
              ℤ) : ℚ) := by
          have := Int.floor_nonneg.2
            (div_nonneg (sub_nonneg.2 (not_lt.1 h2)) hp.le)
          exact_mod_cast this
        exact max_le hl (by nlinarith [mul_nonneg hk hr])
    · rw [if_neg h1]
      have h2 : ¬ (t' - s.startTime) / (1000 * 60 * 60) < s.cliffHours := by
        push_neg
        exact le_trans (not_lt.1 h1) hE
      rw [if_neg h2]
      have hkk : ⌊((t - s.startTime) / (1000 * 60 * 60) - s.cliffHours) / s.unlockPeriodHours⌋ ≤
          ⌊((t' - s.startTime) / (1000 * 60 * 60) - s.cliffHours) / s.unlockPeriodHours⌋ := by
        apply Int.floor_mono
        apply div_le_div_of_nonneg_right (by linarith) hp.le
      have hkkq : ((⌊((t - s.startTime) / (1000 * 60 * 60) - s.cliffHours) /
            s.unlockPeriodHours⌋ : ℤ) : ℚ) ≤
          ((⌊((t' - s.startTime) / (1000 * 60 * 60) - s.cliffHours) /
            s.unlockPeriodHours⌋ : ℤ) : ℚ) := by exact_mod_cast hkk
      exact max_le_max le_rfl (by nlinarith)
  · intro hts
    have hE0 : (t - s.startTime) / (1000 * 60 * 60) ≤ 0 := by
      rw [div_le_iff₀ hms]
      linarith
    rw [calculateLockedAmount_eq]
    by_cases h1 : (t - s.startTime) / (1000 * 60 * 60) < s.cliffHours
    · rw [if_pos h1]
    · rw [if_neg h1]
      have h0 : (t - s.startTime) / (1000 * 60 * 60) - s.cliffHours = 0 := by
        have := not_lt.1 h1
        linarith
      rw [h0]
      simpa using max_eq_right hl
  · by_cases hb : (t - s.startTime) / (1000 * 60 * 60) < s.cliffHours
    · rw [calculateLockedAmount_eq, if_pos hb]
      exact ⟨hl, le_rfl⟩
    · rw [calculateLockedAmount_eq, if_neg hb]
      have hk : (0 : ℚ) ≤
          ((⌊((t - s.startTime) / (1000 * 60 * 60) - s.cliffHours) / s.unlockPeriodHours⌋ :
            ℤ) : ℚ) := by
        have := Int.floor_nonneg.2 (div_nonneg (sub_nonneg.2 (not_lt.1 hb)) hp.le)
        exact_mod_cast this
      exact ⟨le_max_left _ _, max_le hl (by nlinarith [mul_nonneg hk hr])⟩

theorem c10_monotone_witness :
    calculateLockedAmount (c3Schedule 0) 3600000 ≤ calculateLockedAmount (c3Schedule 0) 0 ∧
    calculateLockedAmount (c3Schedule 0) (-7) = (c3Schedule 0).lockedTuna ∧
    0 ≤ calculateLockedAmount (c3Schedule 0) 3600000 ∧
    calculateLockedAmount (c3Schedule 0) 3600000 ≤ (c3Schedule 0).lockedTuna := by
  have h1 := c10_monotone (c3Schedule 0) 0 3600000 (by norm_num [c3Schedule])
    (by norm_num [c3Schedule]) (by norm_num [c3Schedule]) (by norm_num [c3Schedule])
  have h2 := c10_monotone (c3Schedule 0) (-7) 0 (by norm_num [c3Schedule])
    (by norm_num [c3Schedule]) (by norm_num [c3Schedule]) (by norm_num [c3Schedule])
  have h3 := c10_monotone (c3Schedule 0) 3600000 0 (by norm_num [c3Schedule])
    (by norm_num [c3Schedule]) (by norm_num [c3Schedule]) (by norm_num [c3Schedule])
  exact ⟨h1.1 (by norm_num), h2.2.1 (by norm_num [c3Schedule]), h3.2.2.1, h3.2.2.2⟩
